import Mathlib

/-!
# pbp-tunnel — verification of the reverse-forwarding control protocol

A shallow embedding, in Lean 4, of the core of `pbp-tunnel`: the server's
port allocator (`assignPort`), the IP matcher (`isAllowed`), the four-step
handshake (`processHandshake` on the server, the whitelist encoding and the
port-reply interpretation on the client), the server's per-channel
handshake step 4 and serving/termination phase (`handleChannel`), the
client supervisor's retry loop (`Run`) and the client bridge
(`handleForward`).

Conventions of the embedding:

* Go machine integers are modelled as `Nat` with explicit `% 2 ^ 32`
  where 32-bit wrap-around matters (the wire carries big-endian `u32`).
* Byte streams are `List Nat` (each byte `< 256`; the encoders only ever
  produce such bytes).
* The mutable `forwards map[int]struct{}` guarded by the mutex is an
  explicit `Finset Nat` threaded through the functions; each Go function
  that mutates it returns the updated set.
* Effectful calls (TCP bind, TCP dial, TCP accept) are modelled by
  explicit outcome parameters and by request descriptors recording which
  library call the code makes, with which arguments.
-/

namespace PbpTunnel

/-! ## Error codes (`internal/server/server.go`, `internal/client`)

Both sides declare the same constants:
`ErrSuccess = 0`, `ErrPortUnavailable = 1`, `ErrIPNotAllowed = 2`,
`ErrPortOutOfRange = 3`, `ErrInternal = 4`, `ErrMask = 0x80000000`. -/

def ErrSuccess : Nat := 0

def ErrPortUnavailable : Nat := 1

def ErrIPNotAllowed : Nat := 2

def ErrPortOutOfRange : Nat := 3

def ErrInternal : Nat := 4

def ErrMask : Nat := 0x80000000

/-! ## Port allocator (`assignPort`, server.go lines 282–310)

In Go, `assignPort(reqPort, start, end int, forwards map[int]struct{},
lock *sync.Mutex) (int, uint32)` returns the assigned port and `0`, or
`0` and an error mask, and inserts the assigned port into `forwards`.
The embedding returns the triple (port, mask, updated set). -/

/-- Result of `assignPort`: the returned `(int, uint32)` pair plus the
state of the `forwards` map after the call. -/
structure AssignResult where
  port : Nat
  mask : Nat
  forwards : Finset Nat
deriving DecidableEq

/-- The `for p := start; p <= end; p++` first-fit loop body of
`assignPort`, with the iteration count made explicit as fuel
(`fuel = end + 1 - start` at the call site): returns the first port
`p`, scanning upward, that is not in `forwards`. -/
def scanPorts (p : Nat) (fuel : Nat) (forwards : Finset Nat) : Option Nat :=
  match fuel with
  | 0 => none
  | Nat.succ f => if p ∈ forwards then scanPorts (p + 1) f forwards else some p

/-- `assignPort` (server.go 282–310): invalid range first, then the
specific-port branch (range check, collision check, reserve), then the
first-fit scan. -/
def assignPort (reqPort startP endP : Nat) (forwards : Finset Nat) : AssignResult :=
  if startP > endP then
    ⟨0, ErrMask ||| ErrPortUnavailable, forwards⟩
  else if reqPort ≠ 0 then
    if reqPort < startP ∨ reqPort > endP then
      ⟨0, ErrMask ||| ErrPortOutOfRange, forwards⟩
    else if reqPort ∈ forwards then
      ⟨0, ErrMask ||| ErrPortUnavailable, forwards⟩
    else
      ⟨reqPort, 0, insert reqPort forwards⟩
  else
    match scanPorts startP (endP + 1 - startP) forwards with
    | some p => ⟨p, 0, insert p forwards⟩
    | none => ⟨0, ErrMask ||| ErrPortUnavailable, forwards⟩

/-- If every port in the scanned window is reserved, the scan fails. -/
theorem scanPorts_eq_none (fuel : Nat) :
    ∀ (p : Nat) (f : Finset Nat), (∀ q, p ≤ q → q < p + fuel → q ∈ f) →
      scanPorts p fuel f = none := by
  induction fuel with
  | zero => intro p f _; rfl
  | succ n ih =>
    intro p f h
    have hp : p ∈ f := h p le_rfl (by omega)
    simp only [scanPorts, hp, if_pos]
    exact ih (p + 1) f (fun q hq1 hq2 => h q (by omega) (by omega))

/-- If `p₀` is the least unreserved port at or above `p` and it lies in
the scanned window, the scan returns it. -/
theorem scanPorts_eq_some (fuel : Nat) :
    ∀ (p p₀ : Nat) (f : Finset Nat), p₀ ∉ f → p ≤ p₀ → p₀ < p + fuel →
      (∀ q, p ≤ q → q < p₀ → q ∈ f) →
      scanPorts p fuel f = some p₀ := by
  induction fuel with
  | zero => intro p p₀ f _ h1 h2 _; omega
  | succ n ih =>
    intro p p₀ f hfree hlb hub hmin
    by_cases hp : p = p₀
    · subst hp
      simp only [scanPorts, hfree, if_neg, not_false_iff]
    · have hpf : p ∈ f := hmin p le_rfl (by omega)
      simp only [scanPorts, hpf, if_pos]
      exact ih (p + 1) p₀ f hfree (by omega) (by omega)
        (fun q hq1 hq2 => hmin q (by omega) hq2)

/-! ## Frame codec

`binary.BigEndian.PutUint32` / `binary.BigEndian.Uint32` over 4-byte
buffers, and `io.ReadFull` over the channel byte stream. Bytes are
`Nat`s below 256; the stream is a `List Nat`. -/

/-- `binary.BigEndian.PutUint32`: the four big-endian bytes of
`uint32(n)` (wrap-around made explicit with `% 2 ^ 32`). -/
def putU32 (n : Nat) : List Nat :=
  [n % 2 ^ 32 / 2 ^ 24 % 256, n % 2 ^ 32 / 2 ^ 16 % 256,
   n % 2 ^ 32 / 2 ^ 8 % 256, n % 2 ^ 32 % 256]

/-- `io.ReadFull` of a 4-byte buffer followed by
`binary.BigEndian.Uint32`: reads four bytes off the stream and returns
the decoded value with the unconsumed tail; fails (short read) when
fewer than four bytes remain. -/
def readU32 : List Nat → Option (Nat × List Nat)
  | b0 :: b1 :: b2 :: b3 :: rest =>
      some (b0 * 2 ^ 24 + b1 * 2 ^ 16 + b2 * 2 ^ 8 + b3, rest)
  | _ => none

/-- `io.ReadFull` of an `n`-byte buffer: take exactly `n` bytes off the
stream, failing on a short read. -/
def readBytes : Nat → List Nat → Option (List Nat × List Nat)
  | 0, bs => some ([], bs)
  | _ + 1, [] => none
  | n + 1, b :: bs => (readBytes n bs).map fun p => (b :: p.1, p.2)

/-! ## IP matcher (`isAllowed`, server.go lines 352–368)

`isAllowed` calls `net.ParseIP`, `net.ParseCIDR`,
`(*net.IPNet).Contains` and `strings.Contains` from the Go standard
library (an external collaborator). Those are modelled here for IPv4
dotted-decimal addresses — the spec declares IPv6 peer whitelisting a
non-goal — with Go's rules: four fields separated by dots, each a
decimal 0–255 with no leading zeros; a CIDR is an address, one `/`, and
a decimal prefix length `≤ 32`; `Contains` masks the candidate and
compares with the masked base, and is `false` on a `nil` IP (the result
of a failed `ParseIP`). -/

/-- Split a character list on a separator character, keeping empty
groups, as Go's `strings.SplitN(s, sep, -1)` does for a one-character
separator (used by address parsing at every `.` and `/`). -/
def splitOnChar (sep : Char) : List Char → List (List Char)
  | [] => [[]]
  | c :: cs =>
    if c = sep then [] :: splitOnChar sep cs
    else
      match splitOnChar sep cs with
      | [] => [[c]]
      | g :: gs => (c :: g) :: gs

/-- Decimal value of a digit string. -/
def digitsVal (s : List Char) : Nat :=
  s.foldl (fun acc c => acc * 10 + (c.toNat - 48)) 0

/-- One dotted-decimal field: 1–3 digits, value ≤ 255, no leading zero
(Go ≥ 1.17 rejects `"01"`). -/
def fieldVal (s : List Char) : Option Nat :=
  if s.length = 0 ∨ s.length > 3 then none
  else if ¬ s.all Char.isDigit then none
  else if s.length > 1 ∧ s.headI = '0' then none
  else if digitsVal s ≤ 255 then some (digitsVal s) else none

/-- `net.ParseIP` restricted to IPv4: the address as its 32-bit value. -/
def parseIP (s : List Char) : Option Nat :=
  match splitOnChar '.' s with
  | [a, b, c, d] => do
      let va ← fieldVal a
      let vb ← fieldVal b
      let vc ← fieldVal c
      let vd ← fieldVal d
      pure (va * 2 ^ 24 + vb * 2 ^ 16 + vc * 2 ^ 8 + vd)
  | _ => none

/-- The prefix-length field of a CIDR: digits only, value ≤ 32. -/
def maskVal (s : List Char) : Option Nat :=
  if s.length = 0 ∨ ¬ s.all Char.isDigit then none
  else if digitsVal s ≤ 32 then some (digitsVal s) else none

/-- Rejoin the groups after the first `/` (Go's `ParseCIDR` splits at
the first `/` only). -/
def joinSlash : List (List Char) → List Char
  | [] => []
  | [g] => g
  | g :: gs => g ++ '/' :: joinSlash gs

/-- `net.ParseCIDR` restricted to IPv4: splits at the first `/`, parses
the address and the prefix length, and returns the masked network base
together with the prefix length. -/
def parseCIDR (s : List Char) : Option (Nat × Nat) :=
  match splitOnChar '/' s with
  | [] => none
  | [_] => none
  | addr :: rest => do
      let ip ← parseIP addr
      let n ← maskVal (joinSlash rest)
      pure (ip / 2 ^ (32 - n) * 2 ^ (32 - n), n)

/-- `(*net.IPNet).Contains` applied to the result of `net.ParseIP`:
`false` on a `nil` IP, otherwise masks the candidate and compares with
the network base. -/
def containsIP (net : Nat × Nat) : Option Nat → Bool
  | none => false
  | some ip => ip / 2 ^ (32 - net.2) * 2 ^ (32 - net.2) == net.1

/-- One iteration of `isAllowed`'s loop over the allow-list: a CIDR
entry (contains `/`) matches by parsed containment of the
already-parsed candidate; any other entry matches by exact string
equality `a == ip` on the raw strings. -/
def matchEntry (ip : List Char) (parsed : Option Nat) (a : List Char) : Bool :=
  if a.contains '/' then
    match parseCIDR a with
    | some net => containsIP net parsed
    | none => false
  else a == ip

/-- `isAllowed` (server.go 352–368): an empty allow-list admits
everything, otherwise the candidate is parsed once and the list is
scanned for a matching entry. -/
def isAllowed (ip : List Char) (allowed : List (List Char)) : Bool :=
  if allowed.length = 0 then true
  else allowed.any (matchEntry ip (parseIP ip))

/-! ## Handshake whitelist exchange

Client side (`runSession`, steps 2–3): a big-endian `u32` count, then
per entry a big-endian `u32` length and the raw bytes. Server side
(`processHandshake`, server.go 314–350): the IP admission reply, then
the count, the entries, and the confirmation. -/

/-- The client's whitelist encoding, one entry (`runSession` lines
126–133): `u32` length then the raw bytes, concatenated over the list. -/
def encodeEntries : List (List Nat) → List Nat
  | [] => []
  | e :: es => putU32 e.length ++ e ++ encodeEntries es

/-- The client's step-2 whitelist message (`runSession` lines 120–133):
`u32` count then the encoded entries. -/
def encodeWhitelist (wl : List (List Nat)) : List Nat :=
  putU32 wl.length ++ encodeEntries wl

/-- The server's entry-reading loop (`processHandshake` lines 332–344):
read `count` entries, each a `u32` length followed by that many raw
bytes; any short read fails the handshake. -/
def readEntries : Nat → List Nat → Option (List (List Nat) × List Nat)
  | 0, s => some ([], s)
  | n + 1, s => do
      let (len, s1) ← readU32 s
      let (buf, s2) ← readBytes len s1
      let (rest, s3) ← readEntries n s2
      pure (buf :: rest, s3)

/-- `processHandshake` (server.go 314–350): the IP check reply, the
whitelist count and entries, and the confirmation. Returns the bytes
written to the channel together with the parsed whitelist and the
unconsumed stream (`none` models the Go error returns). -/
def processHandshake (stream : List Nat) (remoteHost : List Char)
    (allowed : List (List Char)) :
    List Nat × Option (List (List Nat) × List Nat) :=
  if allowed.length > 0 ∧ ¬ isAllowed remoteHost allowed then
    (putU32 ErrIPNotAllowed, none)
  else
    match readU32 stream with
    | none => (putU32 ErrSuccess, none)
    | some (count, s1) =>
      match readEntries count s1 with
      | none => (putU32 ErrSuccess, none)
      | some (wl, s2) => (putU32 ErrSuccess ++ putU32 ErrSuccess, some (wl, s2))

/-! ## Server state (`ForwardServer`, server.go lines 27–36)

The Go struct also carries the `*ssh.ServerConfig` and the mutex; the
SSH configuration is opaque to the claims and the mutex is modelled by
threading the `forwards` set explicitly, so both are omitted here. -/

/-- `ForwardServer`: bind address/port for exposing forwarded ports, the
allowed port range, the client whitelist, and the set of in-use ports. -/
structure ForwardServer where
  bindAddress : String
  bindPort : Nat
  portRangeStart : Nat
  portRangeEnd : Nat
  allowedIPs : List String
  forwards : Finset Nat

/-- **C2** The port allocator's reserve operation follows the spec's
rules in order: invalid range (`start > end`) is `PortUnavailable`; a
nonzero request outside `[start, end]` is `PortOutOfRange`; a nonzero
in-range request that is already reserved is `PortUnavailable`; a
nonzero in-range free request is reserved and returned; a zero request
takes the first unreserved port of an ascending scan of `[start, end]`,
and `PortUnavailable` when the whole range is reserved. In every error
case the reservation set is unchanged. -/
theorem assignPort_follows_reserve_rules (reqPort startP endP : Nat) (f : Finset Nat) :
    (startP > endP →
      assignPort reqPort startP endP f = ⟨0, ErrMask ||| ErrPortUnavailable, f⟩) ∧
    (startP ≤ endP → reqPort ≠ 0 → (reqPort < startP ∨ reqPort > endP) →
      assignPort reqPort startP endP f = ⟨0, ErrMask ||| ErrPortOutOfRange, f⟩) ∧
    (startP ≤ endP → reqPort ≠ 0 → startP ≤ reqPort → reqPort ≤ endP → reqPort ∈ f →
      assignPort reqPort startP endP f = ⟨0, ErrMask ||| ErrPortUnavailable, f⟩) ∧
    (startP ≤ endP → reqPort ≠ 0 → startP ≤ reqPort → reqPort ≤ endP → reqPort ∉ f →
      assignPort reqPort startP endP f = ⟨reqPort, 0, insert reqPort f⟩) ∧
    (reqPort = 0 → startP ≤ endP → ∀ p₀, p₀ ∉ f → startP ≤ p₀ → p₀ ≤ endP →
      (∀ q, startP ≤ q → q < p₀ → q ∈ f) →
      assignPort reqPort startP endP f = ⟨p₀, 0, insert p₀ f⟩) ∧
    (reqPort = 0 → startP ≤ endP → (∀ q, startP ≤ q → q ≤ endP → q ∈ f) →
      assignPort reqPort startP endP f = ⟨0, ErrMask ||| ErrPortUnavailable, f⟩) := by
  refine ⟨?_, ?_, ?_, ?_, ?_, ?_⟩
  · intro hgt
    simp only [assignPort, if_pos hgt]
  · intro hle hne hout
    simp only [assignPort, if_neg (by omega : ¬ startP > endP), if_pos hne, if_pos hout]
  · intro hle hne hlb hub hin
    simp only [assignPort, if_neg (by omega : ¬ startP > endP), if_pos hne,
      if_neg (by omega : ¬ (reqPort < startP ∨ reqPort > endP)), if_pos hin]
  · intro hle hne hlb hub hout
    simp only [assignPort, if_neg (by omega : ¬ startP > endP), if_pos hne,
      if_neg (by omega : ¬ (reqPort < startP ∨ reqPort > endP)), if_neg hout]
  · intro hreq hle p₀ hfree hlb hub hmin
    subst hreq
    have hscan : scanPorts startP (endP + 1 - startP) f = some p₀ :=
      scanPorts_eq_some _ _ _ _ hfree hlb (by omega) hmin
    simp only [assignPort, if_neg (by omega : ¬ startP > endP), ne_eq,
      not_true_eq_false, if_false, hscan]
  · intro hreq hle hall
    subst hreq
    have hscan : scanPorts startP (endP + 1 - startP) f = none :=
      scanPorts_eq_none _ _ _ (fun q hq1 hq2 => hall q hq1 (by omega))
    simp only [assignPort, if_neg (by omega : ¬ startP > endP), ne_eq,
      not_true_eq_false, if_false, hscan]

/-- Concrete run of `assignPort` discharging each rule of the previous
theorem at explicit inputs. -/
theorem assignPort_follows_reserve_rules_witness :
    assignPort 2000 1500 1502 (∅ : Finset Nat) = ⟨0, ErrMask ||| ErrPortOutOfRange, ∅⟩ ∧
    assignPort 1500 1500 1502 (∅ : Finset Nat) = ⟨1500, 0, insert 1500 ∅⟩ ∧
    assignPort 1500 1500 1502 {1500} = ⟨0, ErrMask ||| ErrPortUnavailable, {1500}⟩ ∧
    assignPort 0 1500 1502 {1500} = ⟨1501, 0, insert 1501 {1500}⟩ ∧
    assignPort 0 1500 1500 {1500} = ⟨0, ErrMask ||| ErrPortUnavailable, {1500}⟩ ∧
    assignPort 7 9 8 {3} = ⟨0, ErrMask ||| ErrPortUnavailable, {3}⟩ := by
  refine ⟨?_, ?_, ?_, ?_, ?_, ?_⟩
  · exact (assignPort_follows_reserve_rules 2000 1500 1502 ∅).2.1 (by decide)
      (by decide) (by decide)
  · exact (assignPort_follows_reserve_rules 1500 1500 1502 ∅).2.2.2.1 (by decide)
      (by decide) (by decide) (by decide) (by decide)
  · exact (assignPort_follows_reserve_rules 1500 1500 1502 {1500}).2.2.1 (by decide)
      (by decide) (by decide) (by decide) (by decide)
  · exact (assignPort_follows_reserve_rules 0 1500 1502 {1500}).2.2.2.2.1 rfl
      (by decide) 1501 (by decide) (by decide) (by decide) (by decide)
  · exact (assignPort_follows_reserve_rules 0 1500 1500 {1500}).2.2.2.2.2 rfl
      (by decide) (by decide)
  · exact (assignPort_follows_reserve_rules 7 9 8 {3}).1 (by decide)

/-- **C10** `assignPort` never excludes the server's own control bind
port: it receives only the request, the range and the reservation set,
so if the server's `bindPort` lies in `[portRangeStart, portRangeEnd]`
and is unreserved, requesting exactly `bindPort` reserves and returns
it, and the first-fit scan of a zero request reaching it (every lower
in-range port reserved) also reserves and returns it. -/
theorem assignPort_does_not_exclude_bindPort (s : ForwardServer)
    (h0 : s.bindPort ≠ 0)
    (h1 : s.portRangeStart ≤ s.bindPort) (h2 : s.bindPort ≤ s.portRangeEnd)
    (h3 : s.bindPort ∉ s.forwards) :
    assignPort s.bindPort s.portRangeStart s.portRangeEnd s.forwards
      = ⟨s.bindPort, 0, insert s.bindPort s.forwards⟩ ∧
    ((∀ q, s.portRangeStart ≤ q → q < s.bindPort → q ∈ s.forwards) →
      assignPort 0 s.portRangeStart s.portRangeEnd s.forwards
        = ⟨s.bindPort, 0, insert s.bindPort s.forwards⟩) := by
  constructor
  · exact (assignPort_follows_reserve_rules s.bindPort s.portRangeStart s.portRangeEnd
      s.forwards).2.2.2.1 (by omega) h0 h1 h2 h3
  · intro hmin
    exact (assignPort_follows_reserve_rules 0 s.portRangeStart s.portRangeEnd
      s.forwards).2.2.2.2.1 rfl (by omega) s.bindPort h3 h1 h2 hmin

/-- Concrete server whose control port 2222 lies inside the forward
range and is picked both by a specific request and by the first-fit
scan. -/
theorem assignPort_does_not_exclude_bindPort_witness :
    assignPort 2222 2220 2230 ({2220, 2221} : Finset Nat)
      = ⟨2222, 0, insert 2222 {2220, 2221}⟩ ∧
    assignPort 0 2220 2230 ({2220, 2221} : Finset Nat)
      = ⟨2222, 0, insert 2222 {2220, 2221}⟩ := by
  have h := assignPort_does_not_exclude_bindPort
    ⟨"0.0.0.0", 2222, 2220, 2230, [], {2220, 2221}⟩
    (by decide) (by decide) (by decide) (by decide)
  exact ⟨h.1, h.2 (by decide)⟩

/-! ## Client session (`internal/client`)

`ClientSession` (part of the client package): the SSH connection handle
is opaque to the claims and the mutex/wait-group are modelled by the
explicit counters, so they are omitted. `LocalAddress` is
`fmt.Sprintf("%s:%d", cp.LocalHost, cp.LocalPort)` as set in `Run`. -/

/-- `ClientSession` state: assigned remote port, local service address,
active flag, bridge counter. -/
structure ClientSession where
  assignedPort : Nat
  localAddress : List Char
  active : Bool
  connectionCount : Nat

/-- The client's interpretation of the 4-byte port reply (`runSession`
step 6). -/
inductive PortReply where
  | assigned (port : Nat)
  | abortNoAvailablePorts
  | abortPortOutOfRange
  | abortInternalError
  | abortUnknownCode (code : Nat)
deriving DecidableEq

/-- Go's `val &^ ErrMask` on a `uint32`: AND NOT with the high bit,
i.e. AND with the complement `0x7FFFFFFF`. -/
def clearMask (val : Nat) : Nat := val &&& 0x7FFFFFFF

/-- `runSession` lines 155–169: if the high bit is set the low 31 bits
select the abort error (`ErrPortUnavailable` → "no available ports",
`ErrPortOutOfRange` → "port out of range", `ErrInternal` →
"internal error", anything else → "server error code"); otherwise the
value is stored as the assigned port. -/
def interpretPortReply (val : Nat) : PortReply :=
  if val &&& ErrMask ≠ 0 then
    let errCode := clearMask val
    if errCode = ErrPortUnavailable then PortReply.abortNoAvailablePorts
    else if errCode = ErrPortOutOfRange then PortReply.abortPortOutOfRange
    else if errCode = ErrInternal then PortReply.abortInternalError
    else PortReply.abortUnknownCode errCode
  else PortReply.assigned val

/-- A TCP dial request as issued to the `net` package: the network, the
address, and the timeout (`net.Dial` carries none; `net.DialTimeout`
carries a duration, recorded in milliseconds). -/
structure DialRequest where
  network : List Char
  address : List Char
  timeoutMs : Option Nat
deriving DecidableEq

/-- The dial `handleForward` performs (part_006 line 206):
`net.Dial("tcp", s.LocalAddress)` — the variant WITHOUT a timeout. -/
def handleForwardDial (s : ClientSession) : DialRequest :=
  ⟨"tcp".toList, s.localAddress, none⟩

/-- Observable steps of one client bridge (`handleForward`). -/
inductive BridgeEvent where
  | dialAttempt (req : DialRequest)
  | copyPhase           -- the two io.Copy directions ran to completion
  | closeLocal          -- defer localConn.Close()
  | bridgeDone          -- defer s.ActiveConnections.Done()
  | closeChannel        -- defer ch.Close()
deriving DecidableEq

/-- `handleForward` (part_006 lines 202–229) as a trace over the dial
outcome: on dial failure the deferred `Done()` and `ch.Close()` run and
the function returns — the session state is untouched; on success the
two copy directions run, then the deferred closes. -/
def handleForward (s : ClientSession) (dialOk : Bool) :
    List BridgeEvent × ClientSession :=
  if dialOk then
    ([BridgeEvent.dialAttempt (handleForwardDial s), BridgeEvent.copyPhase,
      BridgeEvent.closeLocal, BridgeEvent.bridgeDone, BridgeEvent.closeChannel], s)
  else
    ([BridgeEvent.dialAttempt (handleForwardDial s), BridgeEvent.bridgeDone,
      BridgeEvent.closeChannel], s)

/-! ## Client supervisor (`Run`, part_006 lines 38–92) -/

/-- `maxRetries` (part_006 line 46). -/
def maxRetries : Nat := 5

/-- `retryDelay = 5 * time.Second`, in milliseconds. -/
def retryDelayMs : Nat := 5000

/-- What one iteration of `Run`'s connection loop observes:
`config.GetClientConfig` fails; `ssh.Dial` fails; the connection
succeeds but `runSession` returns an error; or the session ends
cleanly. -/
inductive AttemptOutcome where
  | configErr
  | dialErr
  | sessionErr
  | sessionOk
deriving DecidableEq

/-- Trace events of the supervisor loop. -/
inductive RunEvent where
  | attempt (o : AttemptOutcome)
  | sleep (ms : Nat)
deriving DecidableEq

/-- How `Run` ends (`fuelExhausted` marks the outcome list running dry,
a model artifact for the otherwise endless loop). -/
inductive RunResult where
  | sessionFatal
  | retriesExceeded
  | invalidConfig
  | fuelExhausted
deriving DecidableEq

/-- The connection loop of `Run` (part_006 lines 51–91), one iteration
per outcome: a session error returns it; a clean session sleeps the
retry delay and resets `retry` to 0; a config or dial failure sleeps
and increments `retry` while `retry < maxRetries`, and otherwise
returns the fatal retries-exceeded error. -/
def runLoop (retry : Nat) : List AttemptOutcome → List RunEvent × RunResult
  | [] => ([], RunResult.fuelExhausted)
  | o :: os =>
    match o with
    | AttemptOutcome.sessionErr => ([RunEvent.attempt o], RunResult.sessionFatal)
    | AttemptOutcome.sessionOk =>
        let r := runLoop 0 os
        (RunEvent.attempt o :: RunEvent.sleep retryDelayMs :: r.1, r.2)
    | _ =>
        if retry < maxRetries then
          let r := runLoop (retry + 1) os
          (RunEvent.attempt o :: RunEvent.sleep retryDelayMs :: r.1, r.2)
        else ([RunEvent.attempt o], RunResult.retriesExceeded)

/-- `Run` (part_006 lines 38–92): `cp.Validate()` failing is fatal
before any attempt; otherwise the loop starts with `retry = 0`. -/
def clientRun (validateOk : Bool) (outcomes : List AttemptOutcome) :
    List RunEvent × RunResult :=
  if validateOk then runLoop 0 outcomes else ([], RunResult.invalidConfig)

/-- Number of connection attempts in a supervisor trace. -/
def countAttempts (evs : List RunEvent) : Nat :=
  evs.countP fun e => match e with | RunEvent.attempt _ => true | _ => false

/-! ## Server accept loop (`Run`, server.go lines 92–101) -/

/-- Outcome of one `ln.Accept()` in the server's accept loop, with the
OS-level transient/fatal classification of the error kept on the
outcome so the loop's (non-)use of it is visible. -/
inductive AcceptOutcome where
  | ok
  | errTemporary
  | errFatal
deriving DecidableEq

/-- What the accept-loop body does next. -/
inductive AcceptAction where
  | spawnHandler
  | backoffRetry (ms : Nat)
  | terminate
deriving DecidableEq

/-- The body of the server accept loop (server.go 93–101): an accepted
connection spawns `handleSSHConnection`; on error the code logs, sleeps
100 ms and continues — it never inspects the error and never returns. -/
def acceptLoopStep : AcceptOutcome → AcceptAction
  | AcceptOutcome.ok => AcceptAction.spawnHandler
  | AcceptOutcome.errTemporary => AcceptAction.backoffRetry 100
  | AcceptOutcome.errFatal => AcceptAction.backoffRetry 100

/-! ## Handshake step 4 and the serving phase (`handleChannel`) -/

/-- Whether `net.Listen("tcp", bindAddress:port)` succeeds. -/
inductive BindOutcome where
  | ok
  | fail
deriving DecidableEq

/-- Result of steps 3–5 of `handleChannel`: the 4-byte reply written to
the channel, the reservation set after the step, and whether the
session reached Serving. -/
structure Step4Result where
  reply : Nat
  forwards : Finset Nat
  reachedServing : Bool
deriving DecidableEq

/-- Steps 3–5 of `handleChannel` (server.go 161–184): assign a port; on
allocator failure write the mask and return; on bind failure write
`ErrMask ||| ErrInternal` and return — the reservation made by
`assignPort` is NOT removed on this path; on success write the port and
proceed to Serving. -/
def handleChannelStep4 (reqPort : Nat) (s : ForwardServer) (bind : BindOutcome) :
    Step4Result :=
  let r := assignPort reqPort s.portRangeStart s.portRangeEnd s.forwards
  if r.mask ≠ 0 then ⟨r.mask, r.forwards, false⟩
  else
    match bind with
    | BindOutcome.fail => ⟨ErrMask ||| ErrInternal, r.forwards, false⟩
    | BindOutcome.ok => ⟨r.port, r.forwards, true⟩

/-- Observable steps of a Forward Session's termination. -/
inductive SessionEvent where
  | sshConnEnded
  | listenerClosed
  | drainBridges
  | portReleased (p : Nat)
deriving DecidableEq

/-- Why the `ln.Accept` call of the serving loop failed. -/
inductive AcceptFailMode where
  | doneObserved        -- the watcher had closed `done`: client disconnected
  | closedListenerErr   -- `done` not observed; error text names a closed listener
  | otherErr
deriving DecidableEq

/-- The error branch of the serving accept loop (server.go 198–212):
computes the `doWaitForConnection` flag with which control reaches the
RELEASE block (the flag starts `true` and is cleared only in the
closed-listener default branch). -/
def acceptErrorBranch (doWait : Bool) : AcceptFailMode → Bool
  | AcceptFailMode.doneObserved => doWait
  | AcceptFailMode.closedListenerErr => false
  | AcceptFailMode.otherErr => doWait

/-- The RELEASE block (server.go 266–277): wait on the bridge
wait-group when `doWaitForConnection`, then remove the port from the
reservation set under the lock. -/
def releaseBlock (doWait : Bool) (port : Nat) (forwards : Finset Nat) :
    List SessionEvent × Finset Nat :=
  ((if doWait then [SessionEvent.drainBridges] else []) ++ [SessionEvent.portReleased port],
    forwards.erase port)

/-- One exit of the serving accept loop of `handleChannel`
(server.go 186–278). `sshEnded` records whether the watcher goroutine
(lines 188–192: `sshConn.Wait()`, `ln.Close()`, `close(done)`) has run
before the failing `Accept`; its `ln.Close()` is the only closer of the
listener while serving, so `AcceptFailMode.closedListenerErr` is
reachable only with `sshEnded = true` — it is the race where the
`select` fires between `ln.Close()` and `close(done)`, two
unsynchronized statements of the watcher. `mode` selects the branch of
the error handling (lines 198–212) and thereby the
`doWaitForConnection` flag with which RELEASE runs. -/
def servingExit (sshEnded : Bool) (mode : AcceptFailMode) (port : Nat)
    (forwards : Finset Nat) : List SessionEvent × Finset Nat :=
  let preEvs :=
    if sshEnded then [SessionEvent.sshConnEnded, SessionEvent.listenerClosed] else []
  let doWait := acceptErrorBranch true mode
  let r := releaseBlock doWait port forwards
  (preEvs ++ r.1, r.2)

/-! ## IP matcher claims -/

/-- **C4** counterexample: the candidate `"bogus"` does not parse as an
IP, and the allow-list entry `"bogus"` parses neither as a CIDR nor as
an address, yet `isAllowed` admits the candidate — non-CIDR entries are
compared as raw strings without parsing either side, so an unparsable
candidate does not fail every entry. -/
theorem isAllowed_unparsable_candidate_admitted :
    parseIP "bogus".toList = none ∧
    parseCIDR "bogus".toList = none ∧
    isAllowed "bogus".toList ["bogus".toList] = true := by
  refine ⟨by decide, by decide, by decide⟩

/-- **C4 (amended)** The IP matcher admits every candidate when the
allow-list is empty; with a non-empty list it admits a candidate iff
some entry matches. A CIDR entry (containing `/`) matches by
containment of the parsed candidate: an unparsable CIDR entry never
matches, and an unparsable candidate fails every CIDR entry. A non-CIDR
entry matches by exact textual equality of the raw strings, with no
parsing on either side. -/
theorem isAllowed_contract (ip : List Char) (allowed : List (List Char)) :
    (allowed = [] → isAllowed ip allowed = true) ∧
    (allowed ≠ [] →
      (isAllowed ip allowed = true ↔
        ∃ a ∈ allowed, matchEntry ip (parseIP ip) a = true)) ∧
    (∀ a, a.contains '/' = true → parseCIDR a = none →
      matchEntry ip (parseIP ip) a = false) ∧
    (∀ a net, a.contains '/' = true → parseCIDR a = some net →
      matchEntry ip (parseIP ip) a = containsIP net (parseIP ip)) ∧
    (parseIP ip = none → ∀ a, a.contains '/' = true →
      matchEntry ip (parseIP ip) a = false) ∧
    (∀ a, a.contains '/' = false →
      (matchEntry ip (parseIP ip) a = true ↔ a = ip)) := by
  refine ⟨?_, ?_, ?_, ?_, ?_, ?_⟩
  · intro h; subst h; rfl
  · intro hne
    have hlen : ¬ allowed.length = 0 := by
      cases allowed with
      | nil => exact absurd rfl hne
      | cons a as => simp
    simp only [isAllowed, if_neg hlen, List.any_eq_true]
  · intro a hslash hfail
    simp only [matchEntry, hslash, if_pos, hfail]
  · intro a net hslash hok
    simp only [matchEntry, hslash, if_pos, hok]
  · intro hnone a hslash
    rcases h : parseCIDR a with _ | net
    · simp only [matchEntry, hslash, if_pos, h]
    · simp only [matchEntry, hslash, if_pos, h, hnone, containsIP]
  · intro a hslash
    simp only [matchEntry, hslash, Bool.false_eq_true, if_false, beq_iff_eq]

/-- Concrete instantiation of the amended matcher contract: the list
`["10.0.0.0/8", "not/a/cidr", "192.0.2.7"]` against candidates
`"10.1.2.3"` (CIDR containment), `"192.0.2.7"` (exact equality) and the
unparsable `"zzz"`. -/
theorem isAllowed_contract_witness :
    isAllowed "203.0.113.9".toList [] = true ∧
    isAllowed "10.1.2.3".toList
      ["10.0.0.0/8".toList, "not/a/cidr".toList, "192.0.2.7".toList] = true ∧
    matchEntry "10.1.2.3".toList (parseIP "10.1.2.3".toList) "not/a/cidr".toList = false ∧
    matchEntry "zzz".toList (parseIP "zzz".toList) "10.0.0.0/8".toList = false ∧
    (matchEntry "192.0.2.7".toList (parseIP "192.0.2.7".toList) "192.0.2.7".toList = true ↔
      "192.0.2.7".toList = "192.0.2.7".toList) := by
  refine ⟨(isAllowed_contract "203.0.113.9".toList []).1 rfl, ?_, ?_, ?_, ?_⟩
  · exact ((isAllowed_contract "10.1.2.3".toList
      ["10.0.0.0/8".toList, "not/a/cidr".toList, "192.0.2.7".toList]).2.1
      (by decide)).mpr ⟨"10.0.0.0/8".toList, by decide, by decide⟩
  · exact (isAllowed_contract "10.1.2.3".toList []).2.2.1 "not/a/cidr".toList
      (by decide) (by decide)
  · exact (isAllowed_contract "zzz".toList []).2.2.2.2.1 (by decide)
      "10.0.0.0/8".toList (by decide)
  · exact (isAllowed_contract "192.0.2.7".toList []).2.2.2.2.2 "192.0.2.7".toList
      (by decide)

/-! ## Whitelist round trip -/

/-- Reading back four big-endian bytes of a value below `2 ^ 32`
recovers the value and leaves the tail untouched. -/
theorem readU32_putU32 (n : Nat) (rest : List Nat) (h : n < 2 ^ 32) :
    readU32 (putU32 n ++ rest) = some (n, rest) := by
  simp only [putU32, readU32, List.cons_append, List.nil_append]
  have hn : n % 2 ^ 32 = n := Nat.mod_eq_of_lt h
  rw [hn]
  have : n / 2 ^ 24 % 256 * 2 ^ 24 + n / 2 ^ 16 % 256 * 2 ^ 16
      + n / 2 ^ 8 % 256 * 2 ^ 8 + n % 256 = n := by omega
  rw [this]

/-- Reading back exactly the bytes of `l` recovers `l` and the tail. -/
theorem readBytes_append (l rest : List Nat) :
    readBytes l.length (l ++ rest) = some (l, rest) := by
  induction l with
  | nil => rfl
  | cons b bs ih =>
    simp only [List.length_cons, List.cons_append, readBytes, List.append_eq, ih,
      Option.map_some']

/-- The server's entry loop inverts the client's entry encoding. -/
theorem readEntries_encodeEntries (wl : List (List Nat)) (rest : List Nat)
    (h : ∀ e ∈ wl, e.length < 2 ^ 32) :
    readEntries wl.length (encodeEntries wl ++ rest) = some (wl, rest) := by
  induction wl with
  | nil => rfl
  | cons e es ih =>
    have h1 := readU32_putU32 e.length (e ++ (encodeEntries es ++ rest))
      (h e (List.mem_cons_self _ _))
    have h2 := readBytes_append e (encodeEntries es ++ rest)
    have h3 := ih (fun x hx => h x (List.mem_cons_of_mem _ hx))
    simp only [List.length_cons, readEntries, encodeEntries, List.append_assoc,
      h1, h2, h3, Option.bind_eq_bind, Option.some_bind, Option.pure_def]

/-- **C8** Encode-then-decode of the handshake whitelist is the
identity: for every whitelist whose count and entry lengths fit in a
`u32` (so the wire's 32-bit fields can carry them), the server's
`processHandshake` applied to the client's step-2 encoding accepts and
returns exactly the same entries in the same order, leaving the rest of
the stream unconsumed, whenever the step-1 IP admission passes. -/
theorem processHandshake_encodeWhitelist (wl : List (List Nat)) (rest : List Nat)
    (host : List Char) (allowed : List (List Char))
    (hip : allowed = [] ∨ isAllowed host allowed = true)
    (hcount : wl.length < 2 ^ 32)
    (hlen : ∀ e ∈ wl, e.length < 2 ^ 32) :
    processHandshake (encodeWhitelist wl ++ rest) host allowed
      = (putU32 ErrSuccess ++ putU32 ErrSuccess, some (wl, rest)) := by
  have hcond : ¬ (allowed.length > 0 ∧ ¬ isAllowed host allowed) := by
    rcases hip with h | h
    · subst h; simp
    · simp [h]
  have h1 := readU32_putU32 wl.length (encodeEntries wl ++ rest) hcount
  have h2 := readEntries_encodeEntries wl rest hlen
  simp only [processHandshake, if_neg hcond, encodeWhitelist, List.append_assoc, h1, h2]

/-- Concrete round trip: two entries (the bytes of `"10.0.0.0/8"` and
`"192.0.2.7"`) survive encode-then-decode with a nonempty stream tail. -/
theorem processHandshake_encodeWhitelist_witness :
    processHandshake (encodeWhitelist [[49, 48], [57, 57, 57]] ++ [7, 7])
        "198.51.100.5".toList []
      = (putU32 ErrSuccess ++ putU32 ErrSuccess, some ([[49, 48], [57, 57, 57]], [7, 7])) :=
  processHandshake_encodeWhitelist [[49, 48], [57, 57, 57]] [7, 7]
    "198.51.100.5".toList [] (Or.inl rfl) (by decide) (by decide)

/-! ## Client port-reply interpretation -/

/-- Auxiliary: `countAttempts` counts one per `attempt` event. -/
theorem countAttempts_attempt (o : AttemptOutcome) (evs : List RunEvent) :
    countAttempts (RunEvent.attempt o :: evs) = countAttempts evs + 1 := by
  simp [countAttempts, List.countP_cons]

/-- Auxiliary: `sleep` events do not count as attempts. -/
theorem countAttempts_sleep (t : Nat) (evs : List RunEvent) :
    countAttempts (RunEvent.sleep t :: evs) = countAttempts evs := by
  simp [countAttempts, List.countP_cons]

/-- **C9** For every 4-byte port reply value the client reads: it
aborts iff the high bit (bit 31) is set; when set, the abort error is
selected by the low 31 bits (`ErrPortUnavailable` → "no available
ports", `ErrPortOutOfRange` → "port out of range", `ErrInternal` →
"internal error"); when clear, the session's assigned port equals the
value read. -/
theorem interpretPortReply_spec (val : Nat) (_hval : val < 2 ^ 32) :
    (val.testBit 31 = false → interpretPortReply val = PortReply.assigned val) ∧
    (val.testBit 31 = true →
      (∀ p, interpretPortReply val ≠ PortReply.assigned p) ∧
      (val % 2 ^ 31 = ErrPortUnavailable →
        interpretPortReply val = PortReply.abortNoAvailablePorts) ∧
      (val % 2 ^ 31 = ErrPortOutOfRange →
        interpretPortReply val = PortReply.abortPortOutOfRange) ∧
      (val % 2 ^ 31 = ErrInternal →
        interpretPortReply val = PortReply.abortInternalError)) := by
  have hmask : ErrMask = 2 ^ 31 := by norm_num [ErrMask]
  have hand : val &&& ErrMask = (val.testBit 31).toNat * 2 ^ 31 := by
    rw [hmask, Nat.and_two_pow]
  have hclear : clearMask val = val % 2 ^ 31 := by
    have h7 : (0x7FFFFFFF : Nat) = 2 ^ 31 - 1 := by norm_num
    rw [clearMask, h7, Nat.and_pow_two_sub_one_eq_mod]
  constructor
  · intro ht
    rw [interpretPortReply, hand, ht]
    simp
  · intro ht
    have hcase : val &&& ErrMask ≠ 0 := by
      rw [hand, ht]
      simp
    have hrw : interpretPortReply val =
        (if clearMask val = ErrPortUnavailable then PortReply.abortNoAvailablePorts
         else if clearMask val = ErrPortOutOfRange then PortReply.abortPortOutOfRange
         else if clearMask val = ErrInternal then PortReply.abortInternalError
         else PortReply.abortUnknownCode (clearMask val)) := by
      rw [interpretPortReply, if_pos hcase]
    rw [hrw, hclear]
    refine ⟨?_, ?_, ?_, ?_⟩
    · intro p
      split_ifs <;> simp
    · intro hc
      rw [hc, if_pos rfl]
    · intro hc
      rw [hc, if_neg (by decide), if_pos rfl]
    · intro hc
      rw [hc, if_neg (by decide), if_neg (by decide), if_pos rfl]

/-- Concrete replies: the masked `PortOutOfRange` (0x80000003) aborts
with "port out of range", the bare value 10000 assigns port 10000. -/
theorem interpretPortReply_spec_witness :
    interpretPortReply 0x80000003 = PortReply.abortPortOutOfRange ∧
    interpretPortReply 10000 = PortReply.assigned 10000 := by
  constructor
  · exact ((interpretPortReply_spec 0x80000003 (by norm_num)).2 (by decide)).2.2.1
      (by decide)
  · exact (interpretPortReply_spec 10000 (by norm_num)).1 (by decide)

/-! ## Client bridge dial -/

/-- **C5** counterexample: the client bridge's dial
(part_006 line 206) is plain `net.Dial("tcp", s.LocalAddress)` — it
carries no timeout at all, in particular not the claimed 10 seconds. -/
theorem handleForward_dial_has_no_timeout :
    (handleForwardDial ⟨0, "127.0.0.1:8080".toList, true, 0⟩).timeoutMs = none ∧
    (handleForwardDial ⟨0, "127.0.0.1:8080".toList, true, 0⟩).timeoutMs ≠ some 10000 :=
  ⟨rfl, by decide⟩

/-- **C5 (amended)** For every inbound forwarded channel the bridge
dials TCP to the session's `local_host:local_port` address with no
explicit timeout; on dial failure it runs its deferred cleanup (bridge
counted done, SSH channel closed) and returns, leaving the session
state untouched. -/
theorem handleForward_dial_failure (s : ClientSession) :
    handleForwardDial s = ⟨"tcp".toList, s.localAddress, none⟩ ∧
    (handleForward s false).1
      = [BridgeEvent.dialAttempt (handleForwardDial s), BridgeEvent.bridgeDone,
         BridgeEvent.closeChannel] ∧
    (handleForward s false).2 = s :=
  ⟨rfl, rfl, rfl⟩

/-! ## Client supervisor retry policy -/

/-- **C6** counterexample: with six consecutive dial failures `Run`
performs SIX connection attempts (the last is logged as "attempt 6/5")
before returning the fatal error — more than the claimed five. -/
theorem clientRun_makes_six_failed_attempts :
    (clientRun true (List.replicate 6 AttemptOutcome.dialErr)).2
        = RunResult.retriesExceeded ∧
    countAttempts (clientRun true (List.replicate 6 AttemptOutcome.dialErr)).1 = 6 ∧
    ¬ countAttempts (clientRun true (List.replicate 6 AttemptOutcome.dialErr)).1 ≤ 5 := by
  refine ⟨by decide, by decide, by decide⟩

/-- On an all-failures outcome stream long enough to exhaust the cap,
the loop ends with the retries-exceeded error after `maxRetries - retry
+ 1` further attempts. -/
theorem runLoop_all_failures (k : Nat) :
    ∀ retry, maxRetries - retry < k →
      (runLoop retry (List.replicate k AttemptOutcome.dialErr)).2
          = RunResult.retriesExceeded ∧
      countAttempts (runLoop retry (List.replicate k AttemptOutcome.dialErr)).1
          = maxRetries - retry + 1 := by
  induction k with
  | zero => intro retry hlt; omega
  | succ n ih =>
    intro retry hlt
    by_cases hr : retry < maxRetries
    · have ih' := ih (retry + 1) (by omega)
      simp only [List.replicate_succ, runLoop, if_pos hr]
      refine ⟨ih'.1, ?_⟩
      rw [countAttempts_attempt, countAttempts_sleep, ih'.2]
      omega
    · simp only [List.replicate_succ, runLoop, if_neg hr]
      refine ⟨trivial, ?_⟩
      rw [countAttempts_attempt]
      have h0 : countAttempts [] = 0 := rfl
      rw [h0]
      omega

/-- **C6 (amended)** The client Supervisor's loop makes at most SIX
consecutive failed connection attempts — the initial attempt plus
`maxRetries = 5` retries — each consecutive pair separated by a
5-second delay; a cleanly ended session resets the retry counter to
zero; a session error makes `Run` return it at once; exhausting the cap
makes `Run` return a fatal error; invalid configuration is fatal before
any attempt. -/
theorem clientRun_retry_policy (os : List AttemptOutcome) :
    (∀ retry, runLoop retry (AttemptOutcome.sessionErr :: os)
        = ([RunEvent.attempt AttemptOutcome.sessionErr], RunResult.sessionFatal)) ∧
    (∀ retry, runLoop retry (AttemptOutcome.sessionOk :: os)
        = (RunEvent.attempt AttemptOutcome.sessionOk
            :: RunEvent.sleep retryDelayMs :: (runLoop 0 os).1, (runLoop 0 os).2)) ∧
    (∀ retry, retry < maxRetries → runLoop retry (AttemptOutcome.dialErr :: os)
        = (RunEvent.attempt AttemptOutcome.dialErr
            :: RunEvent.sleep retryDelayMs :: (runLoop (retry + 1) os).1,
           (runLoop (retry + 1) os).2)) ∧
    (runLoop maxRetries (AttemptOutcome.dialErr :: os)
        = ([RunEvent.attempt AttemptOutcome.dialErr], RunResult.retriesExceeded)) ∧
    (clientRun false os = ([], RunResult.invalidConfig)) ∧
    (∀ n, 6 ≤ n →
      (clientRun true (List.replicate n AttemptOutcome.dialErr)).2
          = RunResult.retriesExceeded ∧
      countAttempts (clientRun true (List.replicate n AttemptOutcome.dialErr)).1 = 6) := by
  refine ⟨fun retry => rfl, fun retry => rfl, ?_, ?_, rfl, ?_⟩
  · intro retry hr
    simp only [runLoop, if_pos hr]
  · simp only [runLoop, if_neg (lt_irrefl maxRetries)]
  · intro n hn
    have h := runLoop_all_failures n 0 (by simp only [maxRetries]; omega)
    have hval : maxRetries - 0 + 1 = 6 := by decide
    rw [hval] at h
    have hcr : clientRun true (List.replicate n AttemptOutcome.dialErr)
        = runLoop 0 (List.replicate n AttemptOutcome.dialErr) := rfl
    rw [hcr]
    exact h

/-- Concrete runs of the supervisor loop discharging each hypothesis of
the retry-policy theorem: a failure below the cap sleeps and retries, a
failure at the cap is fatal, and six dial failures exhaust the cap. -/
theorem clientRun_retry_policy_witness :
    runLoop 2 [AttemptOutcome.dialErr]
      = (RunEvent.attempt AttemptOutcome.dialErr
          :: RunEvent.sleep retryDelayMs :: (runLoop 3 []).1, (runLoop 3 []).2) ∧
    runLoop maxRetries [AttemptOutcome.dialErr]
      = ([RunEvent.attempt AttemptOutcome.dialErr], RunResult.retriesExceeded) ∧
    (clientRun true (List.replicate 7 AttemptOutcome.dialErr)).2
        = RunResult.retriesExceeded ∧
    countAttempts (clientRun true (List.replicate 7 AttemptOutcome.dialErr)).1 = 6 := by
  refine ⟨(clientRun_retry_policy []).2.2.1 2 (by decide),
    (clientRun_retry_policy []).2.2.2.1, ?_, ?_⟩
  · exact ((clientRun_retry_policy []).2.2.2.2.2 7 (by decide)).1
  · exact ((clientRun_retry_policy []).2.2.2.2.2 7 (by decide)).2

/-! ## Server accept loop -/

/-- **C7** counterexample: a fatal accept error does not terminate the
server's serve loop — the loop body backs off 100 ms and retries on
every accept error, never returning. -/
theorem acceptLoopStep_fatal_does_not_terminate :
    acceptLoopStep AcceptOutcome.errFatal = AcceptAction.backoffRetry 100 ∧
    acceptLoopStep AcceptOutcome.errFatal ≠ AcceptAction.terminate :=
  ⟨rfl, by decide⟩

/-- **C7 (amended)** In the server's SSH accept loop every accept
error, transient or fatal alike, causes a 100 ms backoff followed by
retry; the loop never terminates on an accept error (the error is never
inspected), and a successful accept spawns a connection handler. -/
theorem acceptLoopStep_spec (o : AcceptOutcome) :
    (o ≠ AcceptOutcome.ok → acceptLoopStep o = AcceptAction.backoffRetry 100) ∧
    acceptLoopStep o ≠ AcceptAction.terminate := by
  cases o
  · exact ⟨fun h => absurd rfl h, by decide⟩
  · exact ⟨fun _ => rfl, by decide⟩
  · exact ⟨fun _ => rfl, by decide⟩

/-- Concrete accept outcomes: a transient error backs off and the loop
does not terminate. -/
theorem acceptLoopStep_spec_witness :
    acceptLoopStep AcceptOutcome.errTemporary = AcceptAction.backoffRetry 100 ∧
    acceptLoopStep AcceptOutcome.errTemporary ≠ AcceptAction.terminate :=
  ⟨(acceptLoopStep_spec AcceptOutcome.errTemporary).1 (by decide),
   (acceptLoopStep_spec AcceptOutcome.errTemporary).2⟩

/-! ## Handshake step 4: bind failure, and serving termination -/

/-- **C1** On bind failure after a successful reservation the server
sends the masked Internal error WITHOUT releasing the reservation: with
range `[8000, 8000]`, an empty reservation set, requested port 8000 and
a failing bind, the handshake does not reach Serving yet port 8000
remains reserved — `handleChannel` removes the port only at the RELEASE
label of the serving loop, which this failing path never executes. -/
theorem handleChannel_bind_failure_keeps_reservation :
    (handleChannelStep4 8000 ⟨"0.0.0.0", 2222, 8000, 8000, [], ∅⟩
        BindOutcome.fail).reply = (ErrMask ||| ErrInternal) ∧
    (handleChannelStep4 8000 ⟨"0.0.0.0", 2222, 8000, 8000, [], ∅⟩
        BindOutcome.fail).reachedServing = false ∧
    8000 ∈ (handleChannelStep4 8000 ⟨"0.0.0.0", 2222, 8000, 8000, [], ∅⟩
        BindOutcome.fail).forwards := by
  refine ⟨by decide, by decide, by decide⟩

/-- **C3** counterexample: two reachable exits of the serving loop
violate drain-then-release-after-SSH-end. On the closed-listener race
exit (the watcher has run `ln.Close()` but its `close(done)` is not yet
observed, so the `select`'s default branch matches "use of closed
network connection" and clears `doWaitForConnection`), port 8000 is
released with NO `drainBridges` event — outstanding bridges are not
awaited. On any other accept error while the SSH connection is still
live, the port is released with no `sshConnEnded` event — the release
precedes SSH termination. -/
theorem servingExit_violates_drain_then_release :
    (servingExit true AcceptFailMode.closedListenerErr 8000 {8000}).1
        = [SessionEvent.sshConnEnded, SessionEvent.listenerClosed,
           SessionEvent.portReleased 8000] ∧
    SessionEvent.drainBridges ∉
      (servingExit true AcceptFailMode.closedListenerErr 8000 {8000}).1 ∧
    (servingExit false AcceptFailMode.otherErr 8000 {8000}).1
        = [SessionEvent.drainBridges, SessionEvent.portReleased 8000] ∧
    SessionEvent.sshConnEnded ∉
      (servingExit false AcceptFailMode.otherErr 8000 {8000}).1 := by
  refine ⟨rfl, by decide, rfl, by decide⟩

/-- **C3 (amended)** Every exit of a Serving Forward Session's accept
loop removes the session's port from the reservation set, and the
release is the final event of the exit. The drain of outstanding
bridges precedes the release exactly on the exits that keep
`doWaitForConnection` true: the exit that observes the termination
signal (`done` closed after the SSH connection ended) and the exit on
an accept error unrelated to the closed listener (where the SSH
connection may still be live); on the closed-listener race exit the
drain is skipped. On the termination-signal exit the full order is SSH
end, listener close, drain, release. -/
theorem servingExit_release_policy (sshEnded : Bool) (mode : AcceptFailMode)
    (port : Nat) (f : Finset Nat) :
    (servingExit sshEnded mode port f).2 = f.erase port ∧
    port ∉ (servingExit sshEnded mode port f).2 ∧
    (servingExit sshEnded mode port f).1.getLast?
        = some (SessionEvent.portReleased port) ∧
    (mode = AcceptFailMode.doneObserved →
      SessionEvent.drainBridges ∈ (servingExit sshEnded mode port f).1) ∧
    (mode = AcceptFailMode.otherErr →
      SessionEvent.drainBridges ∈ (servingExit sshEnded mode port f).1) ∧
    (mode = AcceptFailMode.closedListenerErr →
      SessionEvent.drainBridges ∉ (servingExit sshEnded mode port f).1) ∧
    (servingExit true AcceptFailMode.doneObserved port f).1
        = [SessionEvent.sshConnEnded, SessionEvent.listenerClosed,
           SessionEvent.drainBridges, SessionEvent.portReleased port] := by
  have herase : (servingExit sshEnded mode port f).2 = f.erase port := by
    cases sshEnded <;> cases mode <;> rfl
  refine ⟨herase, ?_, ?_, ?_, ?_, ?_, rfl⟩
  · rw [herase]
    exact Finset.not_mem_erase _ _
  · cases sshEnded <;> cases mode <;> rfl
  · intro hm
    subst hm
    cases sshEnded <;> simp [servingExit, releaseBlock, acceptErrorBranch]
  · intro hm
    subst hm
    cases sshEnded <;> simp [servingExit, releaseBlock, acceptErrorBranch]
  · intro hm
    subst hm
    cases sshEnded <;> simp [servingExit, releaseBlock, acceptErrorBranch]

/-- Concrete serving-loop exits discharging the mode hypotheses of the
release-policy theorem: the termination-signal exit drains before
releasing port 9000, the closed-listener race exit does not, and the
reservation is gone either way. -/
theorem servingExit_release_policy_witness :
    (servingExit true AcceptFailMode.doneObserved 9000 {9000}).2
        = ({9000} : Finset Nat).erase 9000 ∧
    SessionEvent.drainBridges ∈
      (servingExit true AcceptFailMode.doneObserved 9000 {9000}).1 ∧
    SessionEvent.drainBridges ∈
      (servingExit false AcceptFailMode.otherErr 9000 {9000}).1 ∧
    SessionEvent.drainBridges ∉
      (servingExit true AcceptFailMode.closedListenerErr 9000 {9000}).1 :=
  ⟨(servingExit_release_policy true AcceptFailMode.doneObserved 9000 {9000}).1,
   (servingExit_release_policy true AcceptFailMode.doneObserved 9000 {9000}).2.2.2.1 rfl,
   (servingExit_release_policy false AcceptFailMode.otherErr 9000 {9000}).2.2.2.2.1 rfl,
   (servingExit_release_policy true AcceptFailMode.closedListenerErr
      9000 {9000}).2.2.2.2.2.1 rfl⟩

end PbpTunnel
